import Mathlib

/-!
# Verification of the PennyLane-Cirq base device (`cirq_device.py`)

A shallow embedding of `pennylane_cirq/cirq_device.py`.  The class
`CirqDevice` translates PennyLane operations (name, parameters, wires) into
Cirq gate applications appended to a Cirq circuit.  Python dictionaries become
association lists, mutation becomes explicit state passing, and raised
exceptions become `Except` errors.

The helper class `CirqOperation` and the function `unitary_matrix_gate` live
in `cirq_interface.py`, which is not among the sources; those two definitions
are modelled from the spec (marked below), everything else is translated
directly from `cirq_device.py`.
-/

/-- A PennyLane gate parameter.  The gates of this device take real angles;
the matrix argument of `QubitUnitary` is abstracted as one parameter value. -/
abbrev Param := ℚ

/-- A Cirq qubit.  `LineQubit n` is `cirq.LineQubit(n)`; `GridQubit r c`
stands for any other qubit kind a user may pass to the constructor. -/
inductive Qubit where
  | LineQubit (n : ℕ)
  | GridQubit (row col : ℤ)
  deriving DecidableEq, Repr

/-- The Cirq gates produced by the operation map of `cirq_device.py`.
`ZPowGate phi` records `cirq.ZPowGate(exponent=phi / np.pi)` by the
PennyLane phase `phi`; `inverse g` is `cirq.inverse(g)`; `UnitaryGate u`
is the gate built from the `QubitUnitary` matrix parameter `u`. -/
inductive CirqGate where
  | X | Y | Z | H | S | T | CNOT | SWAP | CZ | CSWAP | TOFFOLI
  | ZPowGate (phi : Param)
  | Rx (phi : Param)
  | Ry (phi : Param)
  | Rz (phi : Param)
  | ControlledGate (g : CirqGate)
  | UnitaryGate (u : Param)
  | inverse (g : CirqGate)
  deriving DecidableEq, Repr

/-- The value returned by a parametrization lambda of the operation map:
either a single Cirq gate or a Python list of gates (`Rot`, `CRot`). -/
inductive Gates where
  | single (g : CirqGate)
  | list (gs : List CirqGate)
  deriving DecidableEq, Repr

/-- A Python list of gates: a single (non-iterable) gate is wrapped in a
one-element list, as `CirqOperation.parametrize` does. -/
def Gates.toList : Gates → List CirqGate
  | .single g => [g]
  | .list gs => gs

/-- A gate call `gate(*qubits)` as appended to the Cirq circuit. -/
structure GateApplication where
  gate : CirqGate
  qubits : List Qubit
  deriving DecidableEq, Repr

/-- A PennyLane operation as `apply` receives it: a name, a parameter list
and a wire list. -/
structure Operation where
  name : String
  parameters : List Param
  wires : List ℕ
  deriving DecidableEq, Repr

/-- `pennylane.operation.Operation.string_for_inverse`, the suffix PennyLane
appends to the name of an inverted operation. -/
def Operation.string_for_inverse : String := ".inv"

/-- Modelled from the spec: the operation-wrapper helper `CirqOperation` of
`cirq_interface.py` (not among the sources).  Per the spec it performs the
name/parameter translation and the "inverse-gate derivation": it stores a
parametrization function, `parametrize` evaluates it on the parameters
(`none` models the `TypeError` of an arity mismatch), and `inv` marks the
wrapper as inverted, which makes `parametrize` reverse the gate list and
invert each gate. -/
structure CirqOperation where
  parametrization : List Param → Option Gates
  parametrized_cirq_gates : Option (List CirqGate) := none
  is_inverse : Bool := false

/-- Modelled from the spec: the `CirqOperation` constructor.  It stores the
parametrization; the wrapper starts out not parametrized and not inverted. -/
def CirqOperation.init (p : List Param → Option Gates) : CirqOperation :=
  { parametrization := p, parametrized_cirq_gates := none, is_inverse := false }

/-- Modelled from the spec: `CirqOperation.inv` toggles the inversion flag
in place (here, on a copy of the wrapper). -/
def CirqOperation.inv (c : CirqOperation) : CirqOperation :=
  { c with is_inverse := !c.is_inverse }

/-- Modelled from the spec: `CirqOperation.parametrize(*args)` evaluates the
stored parametrization on the arguments, wraps a single gate into a list,
and, when the wrapper is inverted, reverses the list and inverts each gate. -/
def CirqOperation.parametrize (c : CirqOperation) (args : List Param) :
    Option CirqOperation :=
  (c.parametrization args).map fun gs =>
    let gates := gs.toList
    let gates := if c.is_inverse then gates.reverse.map CirqGate.inverse else gates
    { c with parametrized_cirq_gates := some gates }

/-- Modelled from the spec: `CirqOperation.apply(*qubits)` yields the gate
call `gate(*qubits)` for each parametrized gate, in order. -/
def CirqOperation.applyCalls (c : CirqOperation) (qubits : List Qubit) :
    List GateApplication :=
  (c.parametrized_cirq_gates.getD []).map fun g => ⟨g, qubits⟩

/-- Modelled from the spec: `unitary_matrix_gate` of `cirq_interface.py`
(not among the sources) turns the single `QubitUnitary` matrix parameter
into one matrix gate. -/
def unitary_matrix_gate : List Param → Option Gates
  | [u] => some (.single (.UnitaryGate u))
  | _ => none

/-- First-match lookup in a string-keyed association list, the behaviour of
`d[k]` on a Python `dict` whose keys are strings (`none` models `KeyError`). -/
def lookupStr {V : Type} (d : List (String × V)) (k : String) : Option V :=
  match d with
  | [] => none
  | (k', v) :: rest => if k = k' then some v else lookupStr rest k

/-- A Python dictionary key as it occurs in `cirq_device.py`: a string, or —
in the rotations loop of `apply`, line 190 — an `Operation` object itself. -/
inductive PyKey where
  | str (s : String)
  | obj (o : Operation)

/-- Python `d[k]` on the string-keyed operation maps.  An `Operation` object
never compares equal to any string key, so indexing with the object raises
`KeyError` (`none`). -/
def pyDictLookup {V : Type} (d : List (String × V)) : PyKey → Option V
  | .str s => lookupStr d s
  | .obj _ => none

/-- The Python merge `{**a, **b}`: the keys of `a` in their order, each with
`b`'s value when `b` also binds it, followed by the keys of `b` not in `a`,
in their order. -/
def dictUnion {V : Type} (a b : List (String × V)) : List (String × V) :=
  a.map (fun p => (p.1, (lookupStr b p.1).getD p.2)) ++
    b.filter (fun p => (lookupStr a p.1).isNone)

/-- `CirqDevice._operation_map` (lines 95-125): the static translation table
from PennyLane operation names to wrapped Cirq parametrizations.
`BasisState` and `QubitStateVector` map to `None`. -/
def operation_map : List (String × Option CirqOperation) :=
  [ ("BasisState", none),
    ("QubitStateVector", none),
    ("QubitUnitary", some (CirqOperation.init unitary_matrix_gate)),
    ("PauliX", some (CirqOperation.init fun ps =>
      match ps with | [] => some (.single .X) | _ => none)),
    ("PauliY", some (CirqOperation.init fun ps =>
      match ps with | [] => some (.single .Y) | _ => none)),
    ("PauliZ", some (CirqOperation.init fun ps =>
      match ps with | [] => some (.single .Z) | _ => none)),
    ("Hadamard", some (CirqOperation.init fun ps =>
      match ps with | [] => some (.single .H) | _ => none)),
    ("S", some (CirqOperation.init fun ps =>
      match ps with | [] => some (.single .S) | _ => none)),
    ("T", some (CirqOperation.init fun ps =>
      match ps with | [] => some (.single .T) | _ => none)),
    ("CNOT", some (CirqOperation.init fun ps =>
      match ps with | [] => some (.single .CNOT) | _ => none)),
    ("SWAP", some (CirqOperation.init fun ps =>
      match ps with | [] => some (.single .SWAP) | _ => none)),
    ("CZ", some (CirqOperation.init fun ps =>
      match ps with | [] => some (.single .CZ) | _ => none)),
    ("PhaseShift", some (CirqOperation.init fun ps =>
      match ps with | [phi] => some (.single (.ZPowGate phi)) | _ => none)),
    ("RX", some (CirqOperation.init fun ps =>
      match ps with | [phi] => some (.single (.Rx phi)) | _ => none)),
    ("RY", some (CirqOperation.init fun ps =>
      match ps with | [phi] => some (.single (.Ry phi)) | _ => none)),
    ("RZ", some (CirqOperation.init fun ps =>
      match ps with | [phi] => some (.single (.Rz phi)) | _ => none)),
    ("Rot", some (CirqOperation.init fun ps =>
      match ps with
      | [a, b, c] => some (.list [.Rz a, .Ry b, .Rz c])
      | _ => none)),
    ("CRX", some (CirqOperation.init fun ps =>
      match ps with
      | [phi] => some (.single (.ControlledGate (.Rx phi)))
      | _ => none)),
    ("CRY", some (CirqOperation.init fun ps =>
      match ps with
      | [phi] => some (.single (.ControlledGate (.Ry phi)))
      | _ => none)),
    ("CRZ", some (CirqOperation.init fun ps =>
      match ps with
      | [phi] => some (.single (.ControlledGate (.Rz phi)))
      | _ => none)),
    ("CRot", some (CirqOperation.init fun ps =>
      match ps with
      | [a, b, c] =>
        some (.list [.ControlledGate (.Rz a), .ControlledGate (.Ry b),
                     .ControlledGate (.Rz c)])
      | _ => none)),
    ("CSWAP", some (CirqOperation.init fun ps =>
      match ps with | [] => some (.single .CSWAP) | _ => none)),
    ("Toffoli", some (CirqOperation.init fun ps =>
      match ps with | [] => some (.single .TOFFOLI) | _ => none)) ]

/-- The loop of `__init__` at lines 82-91: for each key of the operation map
whose value is not `None`, build a fresh `CirqOperation` from the stored
parametrization, invert it, and bind it to the key with the inverse suffix
appended. -/
def inverse_operation_map : List (String × Option CirqOperation) :=
  operation_map.filterMap fun p =>
    match p.2 with
    | none => none
    | some op =>
      some (p.1 ++ Operation.string_for_inverse,
            some (CirqOperation.inv (CirqOperation.init op.parametrization)))

/-- Line 93: `self._complete_operation_map = {**self._operation_map,
**self._inverse_operation_map}`. -/
def complete_operation_map : List (String × Option CirqOperation) :=
  dictUnion operation_map inverse_operation_map

/-- The Python exceptions the embedded code can raise. -/
inductive PyError where
  | DeviceError (msg : String)
  | KeyError
  | TypeError
  | IndexError
  | AttributeError
  deriving DecidableEq, Repr

/-- The state of a `CirqDevice`: the wire count, shot count and analytic flag
of the constructor, the qubit list, and the circuit (`none` before `reset`,
mirroring `self.circuit = None`). -/
structure CirqDevice where
  wires : ℕ
  shots : ℕ
  analytic : Bool
  qubits : List Qubit
  circuit : Option (List GateApplication)
  deriving DecidableEq, Repr

/-- Python truthiness of the optional `qubits` constructor argument: `None`
and the empty list are falsy. -/
def pyTruthyQubits : Option (List Qubit) → Bool
  | none => false
  | some qs => !qs.isEmpty

/-- `CirqDevice.__init__` (lines 64-93).  The superclass initialisation is
delegated to PennyLane and not modelled; the inverse and complete operation
maps it builds are the constant `inverse_operation_map` and
`complete_operation_map` above.  When the `qubits` argument is truthy its
length is validated against `wires`; otherwise the default
`cirq.LineQubit` list is created. -/
def CirqDevice.make (wires shots : ℕ) (analytic : Bool)
    (qubits : Option (List Qubit)) : Except PyError CirqDevice :=
  if pyTruthyQubits qubits then
    let qs := qubits.getD []
    if wires ≠ qs.length then
      .error (.DeviceError
        "The number of given qubits and the specified number of wires have to match.")
    else
      .ok ⟨wires, shots, analytic, qs, none⟩
  else
    .ok ⟨wires, shots, analytic, (List.range wires).map Qubit.LineQubit, none⟩

/-- `CirqDevice.reset` (lines 136-139): `self.circuit = cirq.Circuit()`. -/
def CirqDevice.reset (dev : CirqDevice) : CirqDevice :=
  { dev with circuit := some [] }

/-- `CirqDevice.pre_apply` (lines 149-150). -/
def CirqDevice.pre_apply (dev : CirqDevice) : CirqDevice :=
  dev.reset

/-- The body of the main loop of `apply` (lines 161-183) for the operation at
position `i`.  `BasisState` and `QubitStateVector` raise a `DeviceError`
unless they come first, and are otherwise dispatched to the base-class
no-ops `apply_basis_state` / `apply_qubit_state_vector`; every other
operation is looked up by name in the complete operation map, parametrized,
and its gate calls on the qubits indexed by its wires are appended to the
circuit. -/
def applyOperation (dev : CirqDevice) (i : ℕ) (op : Operation) :
    Except PyError CirqDevice :=
  if op.name = "BasisState" then
    if i > 0 then
      .error (.DeviceError
        "The operation BasisState is only supported at the beginning of a circuit.")
    else
      .ok dev
  else if op.name = "QubitStateVector" then
    if i > 0 then
      .error (.DeviceError
        "The operation QubitStateVector is only supported at the beginning of a circuit.")
    else
      .ok dev
  else
    match pyDictLookup complete_operation_map (.str op.name) with
    | none => .error .KeyError
    | some none => .ok dev
    | some (some cirq_operation) =>
      match cirq_operation.parametrize op.parameters with
      | none => .error .TypeError
      | some parametrized =>
        match op.wires.mapM (fun wire => dev.qubits[wire]?) with
        | none => .error .IndexError
        | some qubitArgs =>
          match dev.circuit with
          | none => .error .AttributeError
          | some circ =>
            .ok { dev with circuit := some (circ ++ parametrized.applyCalls qubitArgs) }

/-- The main loop of `apply` (`for i, operation in enumerate(operations)`),
started at position `i`. -/
def applyOps (dev : CirqDevice) (i : ℕ) : List Operation → Except PyError CirqDevice
  | [] => .ok dev
  | op :: rest =>
    match applyOperation dev i op with
    | .error e => .error e
    | .ok dev' => applyOps dev' (i + 1) rest

/-- The body of the rotations loop of `apply` (lines 189-196).  Line 190
indexes the complete operation map with the `Operation` object itself
(`self._complete_operation_map[operation]`), not with its name. -/
def applyRot (dev : CirqDevice) (operation : Operation) :
    Except PyError CirqDevice :=
  match pyDictLookup complete_operation_map (.obj operation) with
  | none => .error .KeyError
  | some none => .ok dev
  | some (some cirq_operation) =>
    match cirq_operation.parametrize operation.parameters with
    | none => .error .TypeError
    | some parametrized =>
      match operation.wires.mapM (fun wire => dev.qubits[wire]?) with
      | none => .error .IndexError
      | some qubitArgs =>
        match dev.circuit with
        | none => .error .AttributeError
        | some circ =>
          .ok { dev with circuit := some (circ ++ parametrized.applyCalls qubitArgs) }

/-- The rotations loop of `apply`. -/
def applyRots (dev : CirqDevice) : List Operation → Except PyError CirqDevice
  | [] => .ok dev
  | op :: rest =>
    match applyRot dev op with
    | .error e => .error e
    | .ok dev' => applyRots dev' rest

/-- `CirqDevice.apply` (lines 158-196): `rotations = rotations or []`, then
the main loop over the operations, then the rotations loop. -/
def CirqDevice.apply (dev : CirqDevice) (operations : List Operation)
    (rotations : Option (List Operation)) : Except PyError CirqDevice :=
  let rots := match rotations with
    | none => []
    | some rs => if rs.isEmpty then [] else rs
  match applyOps dev 0 operations with
  | .error e => .error e
  | .ok dev1 => applyRots dev1 rots

deriving instance DecidableEq for Except

/-- A concrete two-wire device after `pre_apply`, used to evaluate the
theorems below on explicit inputs. -/
def devW : CirqDevice :=
  ⟨2, 100, true, [Qubit.LineQubit 0, Qubit.LineQubit 1], some []⟩

/-- The translation `apply` performs for one operation: look the name up in
the complete operation map, parametrize the wrapper with the operation's
parameters, and build its gate calls on the qubits indexed by the wires.
`none` when a step fails or when the name maps to `None`. -/
def translation (qubits : List Qubit) (op : Operation) :
    Option (List GateApplication) :=
  match lookupStr complete_operation_map op.name with
  | some (some c) =>
    match c.parametrize op.parameters with
    | some c' => (op.wires.mapM (fun w => qubits[w]?)).map c'.applyCalls
    | none => none
  | _ => none

/-- Whether an `apply` outcome is a raised `DeviceError`. -/
def isDeviceError {α : Type} : Except PyError α → Bool
  | .error (.DeviceError _) => true
  | _ => false

/-- The name-and-arity precondition of C7 for one operation: its name is a
key of the complete operation map and, when the entry is a wrapper, the
parameter list fits its parametrization. -/
def paramsOk (op : Operation) : Bool :=
  match lookupStr complete_operation_map op.name with
  | none => false
  | some none => true
  | some (some c) => (c.parametrize op.parameters).isSome

/-- The wire precondition of C7 for one operation: every wire indexes the
qubit list. -/
def wiresOk (qubits : List Qubit) (op : Operation) : Bool :=
  op.wires.all fun w => decide (w < qubits.length)

/-- Whether an `apply` outcome is a success or a raised `DeviceError` — the
only outcomes C7 allows. -/
def okOrDeviceError {α : Type} : Except PyError α → Bool
  | .ok _ => true
  | .error (.DeviceError _) => true
  | .error _ => false

/-! ## Generic lemmas about string-keyed association lists -/

theorem lookupStr_mem {V : Type} {d : List (String × V)} {k : String} {v : V}
    (h : lookupStr d k = some v) : (k, v) ∈ d := by
  induction d with
  | nil => simp [lookupStr] at h
  | cons p rest ih =>
    obtain ⟨k', v'⟩ := p
    by_cases hk : k = k'
    · subst hk
      simp [lookupStr] at h
      subst h
      exact List.mem_cons_self _ _
    · simp only [lookupStr, if_neg hk] at h
      exact List.mem_cons_of_mem _ (ih h)

theorem lookupStr_mapOverride {V : Type} (a b : List (String × V)) (k : String) :
    lookupStr (a.map (fun p => (p.1, (lookupStr b p.1).getD p.2))) k
      = (lookupStr a k).map (fun v => (lookupStr b k).getD v) := by
  induction a with
  | nil => rfl
  | cons p rest ih =>
    obtain ⟨k', v'⟩ := p
    by_cases hk : k = k'
    · subst hk
      simp [lookupStr]
    · simp [lookupStr, hk, ih]

theorem lookupStr_filterNew {V : Type} (a b : List (String × V)) (k : String) :
    lookupStr (b.filter (fun p => (lookupStr a p.1).isNone)) k
      = if (lookupStr a k).isNone then lookupStr b k else none := by
  induction b with
  | nil => simp [lookupStr]
  | cons p rest ih =>
    obtain ⟨k', v'⟩ := p
    by_cases hk : k = k'
    · subst hk
      cases hA : (lookupStr a k).isNone <;>
        simp [List.filter_cons, hA, lookupStr, ih]
    · cases hp : (lookupStr a k').isNone <;>
        simp [List.filter_cons, hp, lookupStr, hk, ih]

theorem lookupStr_append {V : Type} (a b : List (String × V)) (k : String) :
    lookupStr (a ++ b) k
      = (lookupStr a k).orElse (fun _ => lookupStr b k) := by
  induction a with
  | nil => simp [lookupStr, Option.orElse]
  | cons p rest ih =>
    obtain ⟨k', v'⟩ := p
    by_cases hk : k = k' <;> simp [lookupStr, hk, ih, Option.orElse]

theorem lookupStr_dictUnion {V : Type} (a b : List (String × V)) (k : String) :
    lookupStr (dictUnion a b) k
      = match lookupStr a k with
        | some v => some ((lookupStr b k).getD v)
        | none => lookupStr b k := by
  rw [dictUnion, lookupStr_append, lookupStr_mapOverride, lookupStr_filterNew]
  cases lookupStr a k <;> simp [Option.orElse]

/-! ## Facts about the operation maps -/

/-- The keys of the original operation map never carry the inverse suffix, so
the inverse map binds none of them. -/
theorem inverse_lookup_of_orig {k : String} {v : Option CirqOperation}
    (h : lookupStr operation_map k = some v) :
    lookupStr inverse_operation_map k = none := by
  have hmem := lookupStr_mem h
  simp only [operation_map, List.mem_cons, List.not_mem_nil, or_false] at hmem
  rcases hmem with h|h|h|h|h|h|h|h|h|h|h|h|h|h|h|h|h|h|h|h|h|h|h <;>
    (injection h with h1 h2; subst h1; rfl)

/-- C2: at construction, every non-None entry of the operation map gives rise
to an inverse entry keyed by the name with the inverse suffix appended, whose
value is a fresh `CirqOperation` built from the same parametrization and then
inverted; the original entry is itself uninverted and survives unchanged in
the complete map, and the complete operation map is pointwise the union of
the original map and the inverse map (inverse entries taking precedence, as
in `{**a, **b}`). -/
theorem inverse_map_construction :
    (∀ k op, lookupStr operation_map k = some (some op) →
      op.is_inverse = false ∧
      lookupStr inverse_operation_map (k ++ Operation.string_for_inverse)
        = some (some (CirqOperation.inv (CirqOperation.init op.parametrization))))
    ∧ (∀ k v, lookupStr operation_map k = some v →
        lookupStr complete_operation_map k = some v)
    ∧ (∀ s, lookupStr complete_operation_map s
        = (lookupStr inverse_operation_map s).orElse
            (fun _ => lookupStr operation_map s)) := by
  refine ⟨?_, ?_, ?_⟩
  · intro k op h
    have hmem := lookupStr_mem h
    simp only [operation_map, List.mem_cons, List.not_mem_nil, or_false] at hmem
    rcases hmem with h'|h'|h'|h'|h'|h'|h'|h'|h'|h'|h'|h'|h'|h'|h'|h'|h'|h'|h'|h'|h'|h'|h' <;>
      (injection h' with h1 h2; subst h1;
       first
       | exact Option.noConfusion h2
       | (injection h2 with h3; subst h3; exact ⟨rfl, rfl⟩))
  · intro k v h
    rw [complete_operation_map, lookupStr_dictUnion, h, inverse_lookup_of_orig h]
    rfl
  · intro s
    rw [complete_operation_map, lookupStr_dictUnion]
    cases hA : lookupStr operation_map s with
    | none =>
      cases lookupStr inverse_operation_map s <;> rfl
    | some v =>
      rw [inverse_lookup_of_orig hA]
      rfl

/-- Witness for C2: the theorem applied at the concrete key `"BasisState"`,
whose hypothesis is discharged by evaluation. -/
theorem inverse_map_construction_witness :
    lookupStr complete_operation_map "BasisState" = some none :=
  inverse_map_construction.2.1 "BasisState" none rfl

/-- C5: with a non-empty `qubits` argument, construction raises a
`DeviceError` exactly when the wire count differs from the length of the
list, and on success the device's qubit list is the supplied list. -/
theorem make_qubit_length_validation (wires shots : ℕ) (analytic : Bool)
    (qs : List Qubit) (hne : qs ≠ []) :
    ((∃ msg, CirqDevice.make wires shots analytic (some qs)
        = .error (.DeviceError msg)) ↔ wires ≠ qs.length)
    ∧ (∀ dev, CirqDevice.make wires shots analytic (some qs) = .ok dev →
        dev.qubits = qs) := by
  have ht : pyTruthyQubits (some qs) = true := by
    cases qs with
    | nil => exact absurd rfl hne
    | cons a t => rfl
  refine ⟨⟨?_, ?_⟩, ?_⟩
  · rintro ⟨msg, hmsg⟩
    intro heq
    rw [CirqDevice.make, ht] at hmsg
    simp [heq] at hmsg
  · intro hw
    refine ⟨"The number of given qubits and the specified number of wires have to match.", ?_⟩
    rw [CirqDevice.make, ht]
    simp [hw]
  · intro dev h
    rw [CirqDevice.make, ht] at h
    simp only [Option.getD_some] at h
    by_cases hw : wires ≠ qs.length
    · simp [hw] at h
    · rw [if_neg hw] at h
      injection h with h'
      rw [← h']

/-- Witness for C5: the theorem at one wire against a two-qubit list, where
construction must fail, and at two wires, where it must succeed with the
supplied list. -/
theorem make_qubit_length_validation_witness :
    (([Qubit.LineQubit 5, Qubit.GridQubit 0 1] : List Qubit) ≠ []) ∧
    (((∃ msg, CirqDevice.make 1 100 true
          (some [Qubit.LineQubit 5, Qubit.GridQubit 0 1])
        = .error (.DeviceError msg)) ↔
        1 ≠ [Qubit.LineQubit 5, Qubit.GridQubit 0 1].length)
      ∧ (∀ dev, CirqDevice.make 1 100 true
            (some [Qubit.LineQubit 5, Qubit.GridQubit 0 1]) = .ok dev →
          dev.qubits = [Qubit.LineQubit 5, Qubit.GridQubit 0 1])) :=
  ⟨by decide,
   make_qubit_length_validation 1 100 true
     [Qubit.LineQubit 5, Qubit.GridQubit 0 1] (by decide)⟩

/-- C8: an empty `qubits` list is falsy in Python, so the length validation
is skipped and the default `cirq.LineQubit` list is created, even for a
positive wire count where the lengths disagree. -/
theorem make_empty_qubits_ignored (wires shots : ℕ) (analytic : Bool) :
    CirqDevice.make wires shots analytic (some [])
      = .ok ⟨wires, shots, analytic, (List.range wires).map Qubit.LineQubit, none⟩ :=
  rfl

/-- C9: every successful construction yields a qubit list whose length is the
wire count, and with no `qubits` argument the list is
`cirq.LineQubit(0), ..., cirq.LineQubit(wires - 1)` in order. -/
theorem make_qubit_count_invariant (wires shots : ℕ) (analytic : Bool)
    (qubits : Option (List Qubit)) (dev : CirqDevice)
    (h : CirqDevice.make wires shots analytic qubits = .ok dev) :
    dev.qubits.length = wires ∧
      (qubits = none → dev.qubits = (List.range wires).map Qubit.LineQubit) := by
  rw [CirqDevice.make] at h
  by_cases ht : pyTruthyQubits qubits = true
  · rw [if_pos ht] at h
    by_cases hw : wires ≠ (qubits.getD []).length
    · rw [if_pos hw] at h
      exact absurd h (by simp)
    · rw [if_neg hw] at h
      injection h with h'
      rw [← h']
      push_neg at hw
      refine ⟨hw.symm, ?_⟩
      intro hn
      rw [hn] at ht
      exact absurd ht (by simp [pyTruthyQubits])
  · rw [if_neg ht] at h
    injection h with h'
    rw [← h']
    exact ⟨by simp, fun _ => rfl⟩

/-- Witness for C9: the theorem applied to the default construction of a
two-wire device. -/
theorem make_qubit_count_invariant_witness :
    (⟨2, 100, true, [Qubit.LineQubit 0, Qubit.LineQubit 1], none⟩
        : CirqDevice).qubits.length = 2 ∧
      ((none : Option (List Qubit)) = none →
        (⟨2, 100, true, [Qubit.LineQubit 0, Qubit.LineQubit 1], none⟩
            : CirqDevice).qubits = (List.range 2).map Qubit.LineQubit) :=
  make_qubit_count_invariant 2 100 true none _ rfl

/-- C6: `Rot` with parameters `(a, b, c)` parametrizes to the three-gate
sequence `Rz(a), Ry(b), Rz(c)`, and `CRot` to the same three rotations each
wrapped in `cirq.ControlledGate`, in that order. -/
theorem rot_three_gate_decomposition (a b c : Param) :
    (∃ rotOp, lookupStr complete_operation_map "Rot" = some (some rotOp) ∧
      ∃ r, rotOp.parametrize [a, b, c] = some r ∧
        r.parametrized_cirq_gates = some [.Rz a, .Ry b, .Rz c])
    ∧ (∃ crotOp, lookupStr complete_operation_map "CRot" = some (some crotOp) ∧
      ∃ r, crotOp.parametrize [a, b, c] = some r ∧
        r.parametrized_cirq_gates
          = some [.ControlledGate (.Rz a), .ControlledGate (.Ry b),
                  .ControlledGate (.Rz c)]) :=
  ⟨⟨_, rfl, _, rfl, rfl⟩, ⟨_, rfl, _, rfl, rfl⟩⟩

/-- C3 (code bug): the rotations loop indexes the complete operation map with
the `Operation` object instead of its name (line 190), so any rotation —
here a plain `PauliX`, whose name is a key of the map — raises `KeyError`
instead of appending its translated gate. -/
theorem rotations_object_lookup_keyError :
    devW.apply [] (some [⟨"PauliX", [], [0]⟩]) = .error .KeyError ∧
    (lookupStr complete_operation_map "PauliX").isSome = true :=
  ⟨rfl, rfl⟩

theorem complete_basisState :
    lookupStr complete_operation_map "BasisState" = some none := rfl

theorem complete_qubitStateVector :
    lookupStr complete_operation_map "QubitStateVector" = some none := rfl

/-- A successfully translating operation is appended to the circuit by the
loop body, at any position `i`. -/
theorem applyOperation_of_translation {dev : CirqDevice}
    {circ : List GateApplication} {op : Operation} {t : List GateApplication}
    (i : ℕ) (hc : dev.circuit = some circ)
    (h : translation dev.qubits op = some t) :
    applyOperation dev i op = .ok { dev with circuit := some (circ ++ t) } := by
  rw [translation] at h
  split at h
  case h_2 => exact absurd h (by simp)
  case h_1 c hlook =>
    have hbs : op.name ≠ "BasisState" := by
      intro he
      rw [he, complete_basisState] at hlook
      simp at hlook
    have hqsv : op.name ≠ "QubitStateVector" := by
      intro he
      rw [he, complete_qubitStateVector] at hlook
      simp at hlook
    split at h
    case h_2 => exact absurd h (by simp)
    case h_1 c' hpar =>
      cases hmapq : op.wires.mapM (fun w => dev.qubits[w]?) with
      | none => rw [hmapq] at h; exact absurd h (by simp)
      | some qargs =>
        rw [hmapq] at h
        simp only [Option.map_some'] at h
        injection h with ht
        rw [applyOperation, if_neg hbs, if_neg hqsv]
        simp only [pyDictLookup, hlook, hpar, hmapq, hc, ht]

/-- The main loop appends the translations of the operations one after the
other, in the order the operations are given, from any starting position. -/
theorem applyOps_of_translations :
    ∀ (ops : List Operation) (dev : CirqDevice) (circ : List GateApplication)
      (ts : List (List GateApplication)) (i : ℕ),
      dev.circuit = some circ →
      ops.mapM (translation dev.qubits) = some ts →
      applyOps dev i ops
        = .ok { dev with circuit := some (circ ++ ts.flatten) } := by
  intro ops
  induction ops with
  | nil =>
    intro dev circ ts i hc h
    simp only [List.mapM_nil, pure, Option.some.injEq] at h
    rw [← h]
    have he : circ ++ ([] : List (List GateApplication)).flatten = circ := by
      simp
    rw [applyOps, he, ← hc]
  | cons op rest ih =>
    intro dev circ ts i hc h
    rw [List.mapM_cons] at h
    cases htr : translation dev.qubits op with
    | none => rw [htr] at h; simp at h
    | some t =>
      rw [htr] at h
      cases hrest : rest.mapM (translation dev.qubits) with
      | none => rw [hrest] at h; simp at h
      | some ts' =>
        rw [hrest] at h
        simp at h
        rw [applyOps, applyOperation_of_translation i hc htr]
        show applyOps { dev with circuit := some (circ ++ t) } (i + 1) rest = _
        have hq : ({ dev with circuit := some (circ ++ t) } : CirqDevice).qubits
            = dev.qubits := rfl
        rw [ih { dev with circuit := some (circ ++ t) } (circ ++ t) ts' (i + 1)
          rfl (by rw [hq]; exact hrest)]
        rw [← h]
        simp [List.append_assoc]

/-- C1: for operations whose per-operation translations all succeed (their
names are non-None keys of the complete operation map, their parameters fit
the parametrization, and their wires index the qubit list), `apply` appends
exactly those translations to the device circuit, one per operation, in the
order the operations are given. -/
theorem apply_translates_operations_in_order (dev : CirqDevice)
    (circ : List GateApplication) (ops : List Operation)
    (ts : List (List GateApplication)) (hc : dev.circuit = some circ)
    (h : ops.mapM (translation dev.qubits) = some ts) :
    dev.apply ops none
      = .ok { dev with circuit := some (circ ++ ts.flatten) } := by
  rw [CirqDevice.apply, applyOps_of_translations ops dev circ ts 0 hc h]
  rfl

/-- Witness for C1: a three-operation program — a parametrized rotation, the
three-gate `Rot` decomposition and an inverse gate — translated onto a
concrete two-qubit device. -/
theorem apply_translates_operations_in_order_witness :
    devW.apply
      [⟨"RX", [1], [0]⟩, ⟨"Rot", [1, 2, 3], [1]⟩, ⟨"PauliX.inv", [], [0]⟩] none
      = .ok ⟨2, 100, true, [Qubit.LineQubit 0, Qubit.LineQubit 1],
          some (([] : List GateApplication) ++
            ([[⟨.Rx 1, [Qubit.LineQubit 0]⟩],
              [⟨.Rz 1, [Qubit.LineQubit 1]⟩, ⟨.Ry 2, [Qubit.LineQubit 1]⟩,
               ⟨.Rz 3, [Qubit.LineQubit 1]⟩],
              [⟨.inverse .X, [Qubit.LineQubit 0]⟩]] :
                List (List GateApplication)).flatten)⟩ :=
  apply_translates_operations_in_order devW [] _ _ rfl rfl

theorem applyOps_cons (dev : CirqDevice) (i : ℕ) (op : Operation)
    (rest : List Operation) :
    applyOps dev i (op :: rest)
      = match applyOperation dev i op with
        | .error e => .error e
        | .ok dev' => applyOps dev' (i + 1) rest := rfl

/-- The rotations loop either succeeds or raises `KeyError`; it never raises
a `DeviceError`. -/
theorem applyRots_not_deviceError (dev : CirqDevice) (rots : List Operation) :
    isDeviceError (applyRots dev rots) = false := by
  cases rots with
  | nil => rfl
  | cons op rest => rfl

/-- A `DeviceError` from the loop body happens exactly at a misplaced
`BasisState` or `QubitStateVector`. -/
theorem applyOperation_deviceError_inv {dev : CirqDevice} {i : ℕ}
    {op : Operation} {msg : String}
    (h : applyOperation dev i op = .error (.DeviceError msg)) :
    0 < i ∧ (op.name = "BasisState" ∨ op.name = "QubitStateVector") := by
  by_cases hbs : op.name = "BasisState"
  · rw [applyOperation, if_pos hbs] at h
    by_cases hi : i > 0
    · exact ⟨hi, Or.inl hbs⟩
    · rw [if_neg hi] at h
      exact absurd h (by simp)
  · by_cases hqsv : op.name = "QubitStateVector"
    · rw [applyOperation, if_neg hbs, if_pos hqsv] at h
      by_cases hi : i > 0
      · exact ⟨hi, Or.inr hqsv⟩
      · rw [if_neg hi] at h
        exact absurd h (by simp)
    · exfalso
      rw [applyOperation, if_neg hbs, if_neg hqsv] at h
      repeat' split at h
      all_goals simp at h

/-- A misplaced `BasisState` or `QubitStateVector` raises a `DeviceError`. -/
theorem applyOperation_deviceError_of {dev : CirqDevice} {i : ℕ}
    {op : Operation} (hi : 0 < i)
    (hname : op.name = "BasisState" ∨ op.name = "QubitStateVector") :
    ∃ msg, applyOperation dev i op = .error (.DeviceError msg) := by
  by_cases hbs : op.name = "BasisState"
  · exact ⟨_, by rw [applyOperation, if_pos hbs, if_pos hi]⟩
  · rcases hname with h | h
    · exact absurd h hbs
    · exact ⟨_, by rw [applyOperation, if_neg hbs, if_pos h, if_pos hi]⟩

/-- At the first position, `BasisState` and `QubitStateVector` are dispatched
to the base-class no-ops and leave the device unchanged. -/
theorem applyOperation_initial_state_noop {dev : CirqDevice} {op : Operation}
    (h : op.name = "BasisState" ∨ op.name = "QubitStateVector") :
    applyOperation dev 0 op = .ok dev := by
  by_cases hbs : op.name = "BasisState"
  · rw [applyOperation, if_pos hbs]
    rfl
  · rcases h with h | h
    · exact absurd h hbs
    · rw [applyOperation, if_neg hbs, if_pos h]
      rfl

/-- Splitting the main loop at a list split point. -/
theorem applyOps_append (xs ys : List Operation) :
    ∀ (dev : CirqDevice) (i : ℕ),
      applyOps dev i (xs ++ ys)
        = match applyOps dev i xs with
          | .error e => .error e
          | .ok d => applyOps d (i + xs.length) ys := by
  induction xs with
  | nil =>
    intro dev i
    show applyOps dev i ys = _
    rfl
  | cons x xt ih =>
    intro dev i
    rw [List.cons_append, applyOps_cons, applyOps_cons]
    cases applyOperation dev i x with
    | error e => rfl
    | ok dev' =>
      show applyOps dev' (i + 1) (xt ++ ys) = _
      rw [ih dev' (i + 1)]
      have harith : i + 1 + xt.length = i + (x :: xt).length := by
        simp [List.length_cons]
        omega
      rw [harith]

/-- If the main loop raises a `DeviceError`, some operation at absolute
position `i0 + j` with `j` into the list is a misplaced `BasisState` or
`QubitStateVector`, and every operation before it processed without error. -/
theorem applyOps_deviceError_exists :
    ∀ (ops : List Operation) (dev : CirqDevice) (i0 : ℕ),
      isDeviceError (applyOps dev i0 ops) = true →
      ∃ j, ∃ hj : j < ops.length, 0 < i0 + j ∧
        ((ops.get ⟨j, hj⟩).name = "BasisState" ∨
          (ops.get ⟨j, hj⟩).name = "QubitStateVector") ∧
        ∃ dev', applyOps dev i0 (ops.take j) = .ok dev' := by
  intro ops
  induction ops with
  | nil =>
    intro dev i0 h
    exact absurd h (by simp [applyOps, isDeviceError])
  | cons op rest ih =>
    intro dev i0 h
    rw [applyOps_cons] at h
    cases hstep : applyOperation dev i0 op with
    | error e =>
      rw [hstep] at h
      cases e with
      | DeviceError msg =>
        obtain ⟨hi, hname⟩ := applyOperation_deviceError_inv hstep
        refine ⟨0, Nat.succ_pos _, by simpa using hi, by simpa using hname,
          dev, rfl⟩
      | KeyError => simp [isDeviceError] at h
      | TypeError => simp [isDeviceError] at h
      | IndexError => simp [isDeviceError] at h
      | AttributeError => simp [isDeviceError] at h
    | ok dev' =>
      rw [hstep] at h
      obtain ⟨j, hj, hpos, hname, dev'', hpre⟩ := ih dev' (i0 + 1) h
      refine ⟨j + 1, by simpa using Nat.succ_lt_succ hj, by omega,
        by simpa using hname, dev'', ?_⟩
      rw [List.take_succ_cons, applyOps_cons, hstep]
      exact hpre

/-- Conversely, a misplaced `BasisState` or `QubitStateVector` whose prefix
processes without error makes the main loop raise a `DeviceError`. -/
theorem applyOps_deviceError_of {ops : List Operation} {dev : CirqDevice}
    {j : ℕ} (hj : j < ops.length) (hpos : 0 < j)
    (hname : (ops.get ⟨j, hj⟩).name = "BasisState" ∨
      (ops.get ⟨j, hj⟩).name = "QubitStateVector")
    (hpre : ∃ dev', applyOps dev 0 (ops.take j) = .ok dev') :
    isDeviceError (applyOps dev 0 ops) = true := by
  obtain ⟨dev', hpre⟩ := hpre
  have hdrop : ops.drop j = ops.get ⟨j, hj⟩ :: ops.drop (j + 1) := by
    rw [List.get_eq_getElem]
    exact List.drop_eq_getElem_cons hj
  conv_lhs => rw [← List.take_append_drop j ops]
  rw [applyOps_append, hpre]
  show isDeviceError
    (applyOps dev' (0 + (ops.take j).length) (ops.drop j)) = true
  have hlen : (ops.take j).length = j := by
    rw [List.length_take]
    omega
  rw [hlen, Nat.zero_add, hdrop, applyOps_cons]
  obtain ⟨msg, hmsg⟩ :=
    @applyOperation_deviceError_of dev' j (ops.get ⟨j, hj⟩) hpos hname
  rw [hmsg]
  rfl

/-- `apply` raises a `DeviceError` exactly when its main loop does: the
rotations loop contributes none. -/
theorem isDeviceError_apply (dev : CirqDevice) (ops : List Operation)
    (rots : Option (List Operation)) :
    isDeviceError (dev.apply ops rots)
      = isDeviceError (applyOps dev 0 ops) := by
  show isDeviceError (match applyOps dev 0 ops with
    | .error e => .error e
    | .ok dev1 => applyRots dev1 (match rots with
        | none => []
        | some rs => if rs.isEmpty then [] else rs)) = _
  cases applyOps dev 0 ops with
  | error e => rfl
  | ok dev1 => exact applyRots_not_deviceError dev1 _

/-- C4 (amended): `apply` raises a `DeviceError` exactly when some operation
named `BasisState` or `QubitStateVector` stands at a position other than the
first AND every operation before it processes without error (an earlier
failure — e.g. an unknown gate name — surfaces as that other error instead);
at the first position the operation is dispatched to the base-class no-op
handlers and the device is unchanged. -/
theorem apply_deviceError_characterisation (dev : CirqDevice)
    (ops : List Operation) (rots : Option (List Operation)) :
    (isDeviceError (dev.apply ops rots) = true ↔
      ∃ j, ∃ hj : j < ops.length, 0 < j ∧
        ((ops.get ⟨j, hj⟩).name = "BasisState" ∨
          (ops.get ⟨j, hj⟩).name = "QubitStateVector") ∧
        ∃ dev', applyOps dev 0 (ops.take j) = .ok dev')
    ∧ ∀ op, (op.name = "BasisState" ∨ op.name = "QubitStateVector") →
        applyOperation dev 0 op = .ok dev := by
  constructor
  · rw [isDeviceError_apply]
    constructor
    · intro h
      obtain ⟨j, hj, hpos, hname, w⟩ :=
        applyOps_deviceError_exists ops dev 0 h
      exact ⟨j, hj, by simpa using hpos, hname, w⟩
    · rintro ⟨j, hj, hpos, hname, hpre⟩
      exact applyOps_deviceError_of hj hpos hname hpre
  · intro op hname
    exact applyOperation_initial_state_noop hname

/-- Witness for C4: the amended theorem's no-op clause applied to a concrete
`BasisState` at the first position of a concrete device, its hypothesis
discharged by `Or.inl rfl`. -/
theorem apply_deviceError_characterisation_witness :
    applyOperation devW 0 ⟨"BasisState", [], []⟩ = .ok devW :=
  (apply_deviceError_characterisation devW [] none).2
    ⟨"BasisState", [], []⟩ (Or.inl rfl)

/-- Counterexample to C4 as stated: `BasisState` occurs at position 1 (not
first), yet `apply` raises `KeyError` — coming from the unknown gate at
position 0 — and no `DeviceError` at all. -/
theorem apply_deviceError_iff_cex :
    ([⟨"NotAGate", [], []⟩, ⟨"BasisState", [], []⟩] : List Operation)[1]?.map
        Operation.name = some "BasisState" ∧
    devW.apply [⟨"NotAGate", [], []⟩, ⟨"BasisState", [], []⟩] none
      = .error .KeyError ∧
    isDeviceError
      (devW.apply [⟨"NotAGate", [], []⟩, ⟨"BasisState", [], []⟩] none)
      = false :=
  ⟨rfl, rfl, rfl⟩

/-- Valid wires make the qubit indexing of the loop body succeed. -/
theorem mapM_getElem_isSome (qs : List Qubit) :
    ∀ ws : List ℕ, (∀ w ∈ ws, w < qs.length) →
      ∃ qargs, ws.mapM (fun w => qs[w]?) = some qargs := by
  intro ws
  induction ws with
  | nil => exact fun _ => ⟨[], rfl⟩
  | cons w rest ih =>
    intro hall
    obtain ⟨qargs, hq⟩ := ih fun x hx => hall x (List.mem_cons_of_mem _ hx)
    have hw : w < qs.length := hall w (List.mem_cons_self _ _)
    rw [List.mapM_cons, List.getElem?_eq_getElem hw, hq]
    exact ⟨_, rfl⟩

/-- Under the C7 preconditions the loop body either succeeds — preserving the
qubit list and keeping the circuit present — or raises a `DeviceError` for a
misplaced initial-state operation. -/
theorem applyOperation_ok_or_deviceError {dev : CirqDevice} {op : Operation}
    (i : ℕ) (hc : dev.circuit.isSome = true)
    (hp : paramsOk op = true) (hw : wiresOk dev.qubits op = true) :
    (∃ msg, applyOperation dev i op = .error (.DeviceError msg))
    ∨ (∃ dev', applyOperation dev i op = .ok dev'
        ∧ dev'.qubits = dev.qubits ∧ dev'.circuit.isSome = true) := by
  by_cases hbs : op.name = "BasisState"
  · by_cases hi : i > 0
    · exact Or.inl ⟨_, by rw [applyOperation, if_pos hbs, if_pos hi]⟩
    · refine Or.inr ⟨dev, ?_, rfl, hc⟩
      rw [applyOperation, if_pos hbs, if_neg hi]
  · by_cases hqsv : op.name = "QubitStateVector"
    · by_cases hi : i > 0
      · exact Or.inl
          ⟨_, by rw [applyOperation, if_neg hbs, if_pos hqsv, if_pos hi]⟩
      · refine Or.inr ⟨dev, ?_, rfl, hc⟩
        rw [applyOperation, if_neg hbs, if_pos hqsv, if_neg hi]
    · cases hlook : lookupStr complete_operation_map op.name with
      | none => exact absurd hp (by simp [paramsOk, hlook])
      | some v =>
        cases v with
        | none =>
          refine Or.inr ⟨dev, ?_, rfl, hc⟩
          rw [applyOperation, if_neg hbs, if_neg hqsv]
          simp only [pyDictLookup, hlook]
        | some c =>
          have hp' : (c.parametrize op.parameters).isSome = true := by
            have h := hp
            simp only [paramsOk, hlook] at h
            exact h
          obtain ⟨c', hpar⟩ := Option.isSome_iff_exists.mp hp'
          have hws : ∀ w ∈ op.wires, w < dev.qubits.length := by
            intro w hwmem
            have h := hw
            simp only [wiresOk, List.all_eq_true, decide_eq_true_eq] at h
            exact h w hwmem
          obtain ⟨qargs, hq⟩ := mapM_getElem_isSome dev.qubits op.wires hws
          obtain ⟨circ, hcirc⟩ := Option.isSome_iff_exists.mp hc
          refine Or.inr
            ⟨{ dev with circuit := some (circ ++ c'.applyCalls qargs) },
              ?_, rfl, rfl⟩
          rw [applyOperation, if_neg hbs, if_neg hqsv]
          simp only [pyDictLookup, hlook, hpar, hq, hcirc]

/-- The main loop under the C7 preconditions: success or `DeviceError`. -/
theorem applyOps_ok_or_deviceError :
    ∀ (ops : List Operation) (dev : CirqDevice) (i : ℕ),
      dev.circuit.isSome = true →
      (∀ op ∈ ops, paramsOk op = true ∧ wiresOk dev.qubits op = true) →
      okOrDeviceError (applyOps dev i ops) = true := by
  intro ops
  induction ops with
  | nil => exact fun dev i _ _ => rfl
  | cons op rest ih =>
    intro dev i hc hall
    obtain ⟨hp, hw⟩ := hall op (List.mem_cons_self _ _)
    rcases applyOperation_ok_or_deviceError i hc hp hw with
      ⟨msg, heq⟩ | ⟨dev', heq, hqs, hc'⟩
    · rw [applyOps_cons, heq]
      rfl
    · rw [applyOps_cons, heq]
      show okOrDeviceError (applyOps dev' (i + 1) rest) = true
      refine ih dev' (i + 1) hc' fun o ho => ?_
      rw [hqs]
      exact hall o (List.mem_cons_of_mem _ ho)

/-- C7: when every operation's name is a key of the complete operation map,
its parameters fit the mapped parametrization and its wires index the qubit
list, `apply` (with no rotations) raises no error at all except the
input-validation `DeviceError` for a misplaced `BasisState` or
`QubitStateVector`; in particular the qubit indexing never goes out of
bounds. -/
theorem apply_raises_only_deviceErrors (dev : CirqDevice)
    (ops : List Operation) (hc : dev.circuit.isSome = true)
    (hall : ∀ op ∈ ops, paramsOk op = true ∧ wiresOk dev.qubits op = true) :
    okOrDeviceError (dev.apply ops none) = true := by
  have h := applyOps_ok_or_deviceError ops dev 0 hc hall
  show okOrDeviceError (match applyOps dev 0 ops with
    | .error e => .error e
    | .ok dev1 => applyRots dev1 []) = true
  cases hres : applyOps dev 0 ops with
  | error e =>
    rw [hres] at h
    exact h
  | ok dev1 => rfl

/-- Witness for C7: a program with an initial `BasisState`, parametrized,
two-qubit and inverse gates on a concrete device; both preconditions are
discharged by evaluation. -/
theorem apply_raises_only_deviceErrors_witness :
    okOrDeviceError (devW.apply
      [⟨"BasisState", [], []⟩, ⟨"RX", [1], [0]⟩, ⟨"CNOT", [], [0, 1]⟩,
       ⟨"RX.inv", [1], [1]⟩] none) = true :=
  apply_raises_only_deviceErrors devW _ rfl (by decide)
